import Mathlib

/-!
Shallow embedding of the `Command` / `CommandPipeline` process-orchestration
classes (src/Command.hpp, src/CommandPipeline.hpp).

Modelling conventions:
* `CommandState` mirrors the data members of `class Command`.  The raw
  `char** mArguments` array is modelled as `argv0 : Option String`
  (slot 0, the basename of the application) together with
  `extraArguments : List String` (slots `1 .. mArgumentCount-1`); buffer
  capacity (`mArgumentsBufferSize`, `realloc`) only affects memory layout and
  is not modelled.  The unused members `mIsExecuting`, `mSetForClear` and
  `mTerminateCalled` (declared but never read or written by any method) are
  omitted.  The log-file name machinery (`_getStdLogFilePaths`) is pure
  string formatting that no claim depends on and is omitted; the two
  redirect flags are kept because `_clear` resets them.
* OS interaction is made explicit through a `World` value: `procs` maps a
  child pid to the exit status that `waitpid` will eventually report for it
  (`none` once the child has been reaped or if no such child exists);
  `sigterms` is the ordered log of pids that were delivered a SIGTERM via
  `kill`; `reaps` is the ordered log of pids collected via `waitpid`.
  `kill(pid, SIGTERM)` on an existing (unreaped) child succeeds and returns
  0; on a nonexistent pid it fails with `-1`/`errno = ESRCH` (modelled as
  returning `-3`).  A blocking `waitpid(pid, ..., 0)` reaps the child and
  yields its `WEXITSTATUS`.
* `vfork` outcomes are supplied as an explicit `ForkResult` argument:
  either the parent-side failure (negative return, with `errno`) or success
  with the positive child pid.
* Error constants: `ECANCELED = 125`, `ESRCH = 3` (Linux values used by the
  source via `<cerrno>`).
-/

/-- Outcome of a `vfork()` call as observed by the parent: failure with the
value of `errno`, or success with the (positive) pid of the new child. -/
inductive ForkResult where
  | failure (errnoValue : Nat) : ForkResult
  | success (childPid : Int) : ForkResult

/-- The OS-visible world: unreaped children with their eventual exit
statuses, plus ordered logs of delivered SIGTERMs and performed reaps. -/
structure World where
  procs : Int → Option Nat
  sigterms : List Int
  reaps : List Int

/-- Model of `kill(pid, SIGTERM)`: succeeds (returns 0, logging the
delivery) iff the pid names an existing unreaped child, else `-ESRCH`. -/
def osKill (w : World) (pid : Int) : Int × World :=
  match w.procs pid with
  | some _ => (0, { w with sigterms := w.sigterms ++ [pid] })
  | none => (-3, w)

/-- Model of a blocking `waitpid(pid, &status, 0)`: reaps the child (removes
it from the process table, logging the reap) and returns its exit status. -/
def osReap (w : World) (pid : Int) : Nat × World :=
  ((w.procs pid).getD 0,
    { w with
      procs := fun q => if q = pid then none else w.procs q,
      reaps := w.reaps ++ [pid] })

/-- Data members of `class Command` (src/Command.hpp lines 59-85), with the
argument array split into `argv0` and `extraArguments` as described above. -/
structure CommandState where
  mApplication : Option String
  argv0 : Option String
  extraArguments : List String
  mEnvironmentVariables : List (String × String)
  mClearEnvironmentVariables : Bool
  mExecuteCalled : Nat
  childProcessID : Int
  mExitStatus : Int
  mRedirectStdoutToLogFile : Bool
  mRedirectStderrToLogFile : Bool

/-- The state produced by `Command::_initialize()` (lines 328-342):
no application, argv slot 0 reserved but null, no extra arguments,
no child, exit status 0. -/
def Command.initState : CommandState :=
  { mApplication := none
    argv0 := none
    extraArguments := []
    mEnvironmentVariables := []
    mClearEnvironmentVariables := false
    mExecuteCalled := 0
    childProcessID := -1
    mExitStatus := 0
    mRedirectStdoutToLogFile := false
    mRedirectStderrToLogFile := false }

/-- `Command::applicationName()` (lines 539-542): the stored application
path, or the empty string when `mApplication` is null. -/
def Command.applicationName (s : CommandState) : String :=
  s.mApplication.getD ""

/-- `Command::_appendArguments` (lines 89-126).  The guard is transcribed
exactly as written in the source: the request is ignored when
`0 == mExecuteCalled.load()` and `0 > mChildProcessID.load()` both hold
(note: the comment above that guard says the intent is to ignore the
request while executing; the transcription keeps the code's condition). -/
def Command._appendArguments (s : CommandState) (arguments : List String) :
    CommandState :=
  if s.mExecuteCalled = 0 ∧ s.childProcessID < 0 then s
  else if arguments = [] then s
  else { s with extraArguments := s.extraArguments ++ arguments }

/-- `Command::appendArgument` (lines 499-521): wraps a single argument into
a vector and delegates to `_appendArguments`. -/
def Command.appendArgument (s : CommandState) (argument : String) :
    CommandState :=
  Command._appendArguments s [argument]

/-- `Command::appendArguments` (lines 528-533): delegates to
`_appendArguments`. -/
def Command.appendArguments (s : CommandState) (arguments : List String) :
    CommandState :=
  Command._appendArguments s arguments

/-- `Command::wait()` (lines 935-951): if a child pid is owned, block in
`waitpid`, record `WEXITSTATUS`, drop the pid and return the status; else
return 0 immediately. -/
def Command.wait (s : CommandState) (w : World) :
    Int × CommandState × World :=
  if 0 < s.childProcessID then
    let r := osReap w s.childProcessID
    ((r.1 : Int),
      { s with mExitStatus := (r.1 : Int), childProcessID := -1 }, r.2)
  else (0, s, w)

/-- `Command::terminate(bool wait)` (lines 909-926): if a child pid is
owned, send SIGTERM (unconditionally — the `TODO` in the source notes the
signal only needs to be sent once, but no latch is implemented), and when
`waitFlag` is set and the kill succeeded, additionally reap via `wait()`. -/
def Command.terminate (s : CommandState) (w : World) (waitFlag : Bool) :
    Int × CommandState × World :=
  if 0 < s.childProcessID then
    let k := osKill w s.childProcessID
    if waitFlag ∧ k.1 = 0 then Command.wait s k.2
    else (k.1, s, k.2)
  else (0, s, w)

/-- `Command::_clear()` (lines 129-169): first `terminate(true)`, then free
the application and argument strings and reset the transient fields.  The
log-file name fields are not touched by `_clear` (they are reset only by
`_initialize`), matching the source. -/
def Command._clear (s : CommandState) (w : World) : CommandState × World :=
  let t := Command.terminate s w true
  ({ t.2.1 with
      mApplication := none
      argv0 := none
      extraArguments := []
      mEnvironmentVariables := []
      mClearEnvironmentVariables := false
      mExitStatus := 0
      childProcessID := -1
      mRedirectStdoutToLogFile := false
      mRedirectStderrToLogFile := false }, t.2.2)

/-- `Command::clear()` (lines 548-552): `_clear()` followed by
`_initialize()`.  The destructor (lines 489-492) performs `_clear()` alone;
both paths share `Command._clear` here exactly as in the source. -/
def Command.clear (s : CommandState) (w : World) : CommandState × World :=
  let r := Command._clear s w
  ({ Command.initState with mExecuteCalled := r.1.mExecuteCalled }, r.2)

/-- `Command::execute()` (lines 570-658), parent side.  `fetch_add` on
`mExecuteCalled` guards re-entry; `-ECANCELED` (= `-125`) is returned when
the guard trips or a child is already owned.  On `vfork` failure the
negated `errno` is returned — note the transcription preserves the source's
omission of the balancing `fetch_add(-1)` on that path.  On success the
child pid is recorded and the guard released. -/
def Command.execute (s : CommandState) (fork : ForkResult) :
    Int × CommandState :=
  let previous := s.mExecuteCalled
  let s1 : CommandState := { s with mExecuteCalled := s.mExecuteCalled + 1 }
  if 0 < previous then
    (-125, { s1 with mExecuteCalled := s1.mExecuteCalled - 1 })
  else if 0 < s1.childProcessID then
    (-125, { s1 with mExecuteCalled := s1.mExecuteCalled - 1 })
  else
    let s2 : CommandState := { s1 with mExitStatus := 0 }
    match fork with
    | ForkResult.failure errnoValue => (-(errnoValue : Int), s2)
    | ForkResult.success childPid =>
        (0, { s2 with
                childProcessID := childPid,
                mExecuteCalled := s2.mExecuteCalled - 1 })

/-- `Command::executeAndWait()` (lines 664-678): run `execute()`; on 0 fall
through to `wait()`, and on `-ECANCELED` likewise fall through to `wait()`;
any other error is returned as-is. -/
def Command.executeAndWait (s : CommandState) (fork : ForkResult)
    (w : World) : Int × CommandState × World :=
  let e := Command.execute s fork
  if e.1 = 0 then Command.wait e.2 w
  else if e.1 = -125 then Command.wait e.2 w
  else (e.1, e.2, w)

/-- `Command::_forkRedirectToPipeAndExecute` (lines 201-276), parent side:
on `vfork` failure return the negated `errno` leaving the state untouched;
on success record the child pid and return 0.  (The child-side pipe
`dup2`/`exec` plumbing runs in the child process and does not affect the
parent-side state modelled here.) -/
def Command._forkRedirectToPipeAndExecute (s : CommandState)
    (fork : ForkResult) : Int × CommandState :=
  match fork with
  | ForkResult.failure errnoValue => (-(errnoValue : Int), s)
  | ForkResult.success childPid =>
      (0, { s with childProcessID := childPid })

/-- Data members of `class CommandPipeline` (src/CommandPipeline.hpp lines
21-23). -/
structure PipelineState where
  mCommands : List CommandState
  mHasExecuted : Bool
  mExitStatus : Int

/-- Index of the first command without a set application, mirroring the
validation loops of the vector constructor, `appendCommand` and
`appendCommands` (src/CommandPipeline.hpp lines 44-53, 67-71, 107-116). -/
def CommandPipeline.firstEmptyIdx : List CommandState → Option Nat
  | [] => none
  | c :: rest =>
    if Command.applicationName c = "" then some 0
    else (CommandPipeline.firstEmptyIdx rest).map (· + 1)

/-- The vector constructor `CommandPipeline(const std::vector<Command>&)`
(lines 41-57): throws `std::invalid_argument` naming the first offending
index if any command lacks an application; otherwise the commands become
the pipeline.  (The constructor leaves `mHasExecuted`/`mExitStatus`
formally uninitialized in the source; they are modelled with the
default-constructed values `false`/`0`.) -/
def CommandPipeline.ofCommands (commands : List CommandState) :
    Except String PipelineState :=
  match CommandPipeline.firstEmptyIdx commands with
  | some index =>
      Except.error ("Command at index " ++ toString index
        ++ " does not have a set application")
  | none =>
      Except.ok { mCommands := commands, mHasExecuted := false,
                  mExitStatus := 0 }

/-- `CommandPipeline::appendCommand` (lines 64-97, both overloads): throw
`std::invalid_argument` when the command has no application, else push it
onto the back of the pipeline. -/
def CommandPipeline.appendCommand (p : PipelineState) (c : CommandState) :
    Except String PipelineState :=
  if Command.applicationName c = "" then
    Except.error "Command does not have a set application"
  else Except.ok { p with mCommands := p.mCommands ++ [c] }

/-- `CommandPipeline::appendCommands` (lines 104-125): validate every
command first (throwing with the first offending index), then append them
all; on a validation failure nothing is appended. -/
def CommandPipeline.appendCommands (p : PipelineState)
    (commands : List CommandState) : Except String PipelineState :=
  match CommandPipeline.firstEmptyIdx commands with
  | some index =>
      Except.error ("Command at index " ++ toString index
        ++ " does not have a set application")
  | none => Except.ok { p with mCommands := p.mCommands ++ commands }

/-- The spawn loop of `CommandPipeline::execute` (lines 178-198): each
stage is spawned through `_forkRedirectToPipeAndExecute` with the
per-stage `vfork` outcome taken from `forks`; the loop discards the value
returned by `_forkRedirectToPipeAndExecute` for every stage, exactly as
the source does.  (The `pipe`/`close` descriptor plumbing affects only
file descriptors, which no claim depends on, and is not modelled.) -/
def CommandPipeline.executeGo :
    List CommandState → List ForkResult → List CommandState
  | [], _ => []
  | cs, [] => cs
  | c :: cs, f :: fs =>
      (Command._forkRedirectToPipeAndExecute c f).2
        :: CommandPipeline.executeGo cs fs

/-- `CommandPipeline::execute` (lines 170-203): reset `mExitStatus`, spawn
every stage in index order ignoring each stage's spawn result, set
`mHasExecuted`, and return 0 unconditionally. -/
def CommandPipeline.execute (p : PipelineState) (forks : List ForkResult) :
    Int × PipelineState :=
  (0, { p with
          mExitStatus := 0,
          mCommands := CommandPipeline.executeGo p.mCommands forks,
          mHasExecuted := true })

/-- The tail-to-head scan of `CommandPipeline::isRunning` (lines 143-158),
applied to the per-stage running statuses in the order visited by the loop
(last stage first).  `running`/`fallingEdge` are the two local flags; a
running stage observed after the falling edge returns `-1` immediately. -/
def CommandPipeline.isRunningScan : List Bool → Bool → Bool → Int
  | [], running, _ => if running then 1 else 0
  | st :: rest, running, fallingEdge =>
    if st then
      if fallingEdge then -1
      else CommandPipeline.isRunningScan rest true fallingEdge
    else CommandPipeline.isRunningScan rest running running

/-- `CommandPipeline::isRunning` (lines 136-162).  `statuses` lists, in
stage (head-to-tail) order, the value `mCommands[index].isRunning()`
returns for each stage; the loop visits them from the tail, hence the
`reverse`.  When the pipeline has not executed the loop is skipped and
`running = false` is returned as 0. -/
def CommandPipeline.isRunning (p : PipelineState) (statuses : List Bool) :
    Int :=
  if p.mHasExecuted then
    CommandPipeline.isRunningScan statuses.reverse false false
  else 0

/-- The wait loop of `CommandPipeline::wait` (lines 276-288), carrying the
locals `waitCode` and the member `mExitStatus` plus the
`terminatePipeline` flag.  While the flag is clear each stage is waited on
(updating `waitCode` and `mExitStatus` and raising the flag on a non-zero
code); once the flag is set each remaining stage is terminated (with
`wait = false`, its result discarded). -/
def CommandPipeline.waitGo :
    List CommandState → World → Int → Int → Bool →
      List CommandState × World × Int × Int
  | [], w, waitCode, exitCode, _ => ([], w, waitCode, exitCode)
  | c :: rest, w, waitCode, exitCode, terminatePipeline =>
    if terminatePipeline then
      let t := Command.terminate c w false
      let r := CommandPipeline.waitGo rest t.2.2 waitCode exitCode true
      (t.2.1 :: r.1, r.2)
    else
      let q := Command.wait c w
      let r := CommandPipeline.waitGo rest q.2.2 q.1 q.1 (q.1 ≠ 0)
      (q.2.1 :: r.1, r.2)

/-- `CommandPipeline::wait` (lines 269-292): head-to-tail wait over the
stages when the pipeline has executed, else return 0 directly. -/
def CommandPipeline.wait (p : PipelineState) (w : World) :
    Int × PipelineState × World :=
  if p.mHasExecuted then
    let r := CommandPipeline.waitGo p.mCommands w 0 p.mExitStatus false
    (r.2.2.1,
      { p with mCommands := r.1, mExitStatus := r.2.2.2 }, r.2.1)
  else (0, p, w)

/-! Concrete sample states used by closed theorems and witnesses. -/

/-- A freshly constructed `Command("/bin/cat")`: application set, idle,
no child owned. -/
def sampleIdle : CommandState :=
  { Command.initState with
      mApplication := some "/bin/cat", argv0 := some "cat" }

/-- A `Command` whose `execute()` is in flight from another caller:
`mExecuteCalled` has been raised to 1 and no child pid is recorded yet. -/
def sampleBusy : CommandState := { sampleIdle with mExecuteCalled := 1 }

/-- A `Command` owning the live child process 5. -/
def sampleLive : CommandState := { sampleIdle with childProcessID := 5 }

/-- A world with no children. -/
def worldEmpty : World := { procs := fun _ => none, sigterms := [], reaps := [] }

/-- A world where child 5 exists and will report exit status 7. -/
def worldChild5 : World :=
  { procs := fun q => if q = 5 then some 7 else none, sigterms := [], reaps := [] }

/-- A two-stage pipeline of fresh `/bin/cat` commands, not yet executed. -/
def samplePipelineTwo : PipelineState :=
  { mCommands := [sampleIdle, sampleIdle], mHasExecuted := false, mExitStatus := 0 }

/-- Claim C1: `CommandPipeline::execute` ignores the value returned by each
stage's `_forkRedirectToPipeAndExecute`.  With stage 0's `vfork` failing
(`errno = 11`) and stage 1's succeeding with pid 42, `execute` still
returns 0 (success), still spawns the remaining stage (stage 1 ends up
owning pid 42 while stage 0 owns none), terminates nothing (the spawn loop
performs no `kill`), and marks the pipeline as executed — contradicting
the claimed abort/terminate/error behaviour. -/
theorem commandPipeline_execute_ignores_spawn_failure :
    (CommandPipeline.execute samplePipelineTwo
        [ForkResult.failure 11, ForkResult.success 42]).1 = 0
    ∧ ((CommandPipeline.execute samplePipelineTwo
        [ForkResult.failure 11, ForkResult.success 42]).2.mCommands.map
          (fun c => c.childProcessID)) = [-1, 42]
    ∧ (CommandPipeline.execute samplePipelineTwo
        [ForkResult.failure 11, ForkResult.success 42]).2.mHasExecuted = true := by
  refine ⟨rfl, ?_, rfl⟩
  rfl

/-- Claim C2: `Command::terminate` carries no once-only latch (the member
`mTerminateCalled` is never consulted and the source's own `TODO` notes the
signal only needs to be sent once): two successive `terminate()` calls on a
command owning live child 5 deliver SIGTERM to pid 5 twice, not at most
once. -/
theorem command_terminate_resignals_twice :
    (Command.terminate sampleLive worldChild5 false).2.2.sigterms = [5]
    ∧ (Command.terminate
        (Command.terminate sampleLive worldChild5 false).2.1
        (Command.terminate sampleLive worldChild5 false).2.2 false).2.2.sigterms
        = [5, 5] := by
  exact ⟨rfl, rfl⟩

/-- Claim C3: the guard of `Command::_appendArguments` is inverted relative
to its own comment ("Ignore the request if we're currently executing"): on
a fresh idle command (`mExecuteCalled = 0`, `mChildProcessID = -1`)
`appendArgument` silently drops the argument, while on a command whose
execute is in flight `appendArguments` happily appends. -/
theorem command_appendArguments_guard_inverted :
    Command.appendArgument sampleIdle "-n" = sampleIdle
    ∧ (Command.appendArguments sampleBusy ["-n", "file.txt"]).extraArguments
        = ["-n", "file.txt"] := by
  exact ⟨rfl, rfl⟩

/-- Claim C6: when `vfork` fails inside `Command::execute`, the negated
`errno` (here `-11`) is returned, but the `mExecuteCalled` guard is left
raised (the failure path skips the balancing `fetch_add(-1)`), so a
subsequent `execute` — even one whose fork would succeed — is rejected
with `-ECANCELED` instead of spawning: the command is not back in its
pre-call idle state. -/
theorem command_execute_forkFailure_sticks_busy :
    (Command.execute sampleIdle (ForkResult.failure 11)).1 = -11
    ∧ (Command.execute sampleIdle (ForkResult.failure 11)).2.mExecuteCalled = 1
    ∧ (Command.execute (Command.execute sampleIdle (ForkResult.failure 11)).2
        (ForkResult.success 42)).1 = -125 := by
  exact ⟨rfl, rfl, rfl⟩

/-- Claim C7: `Command::wait` on a command owning no child (never spawned,
or already reaped) returns 0 at once leaving state and world untouched;
and after one spawn, the first `wait` returns the child's exit status
while a second `wait` returns 0 (the pid was dropped by the first). -/
theorem command_wait_idle_and_reap_once (s : CommandState) (w : World) :
    (s.childProcessID ≤ 0 → Command.wait s w = (0, s, w))
    ∧ (∀ k : Nat, 0 < s.childProcessID → w.procs s.childProcessID = some k →
        (Command.wait s w).1 = (k : Int)
        ∧ (Command.wait (Command.wait s w).2.1 (Command.wait s w).2.2).1 = 0) := by
  constructor
  · intro h
    unfold Command.wait
    rw [if_neg (by omega)]
  · intro k h hk
    unfold Command.wait
    rw [if_pos h]
    simp [osReap, hk]

/-- Witness for `command_wait_idle_and_reap_once` at concrete inputs:
an idle command returns `(0, ·, ·)` unchanged, and a command owning child
5 (exit status 7) yields 7 then 0. -/
theorem command_wait_idle_and_reap_once_witness :
    (Command.wait sampleIdle worldEmpty = (0, sampleIdle, worldEmpty))
    ∧ ((Command.wait sampleLive worldChild5).1 = 7
        ∧ (Command.wait (Command.wait sampleLive worldChild5).2.1
            (Command.wait sampleLive worldChild5).2.2).1 = 0) :=
  ⟨(command_wait_idle_and_reap_once sampleIdle worldEmpty).1 (by decide),
   (command_wait_idle_and_reap_once sampleLive worldChild5).2 7 (by decide) rfl⟩

/-- Claim C9: whenever `Command::execute` reports the busy condition
(`-ECANCELED = -125`), `executeAndWait` does not surface that error but
falls through to `wait()` and returns its result — the implementation
resolves the busy case as success-then-wait, not as a hard error. -/
theorem command_executeAndWait_busy_falls_through (s : CommandState)
    (fork : ForkResult) (w : World)
    (h : (Command.execute s fork).1 = -125) :
    Command.executeAndWait s fork w
      = Command.wait (Command.execute s fork).2 w := by
  unfold Command.executeAndWait
  simp only [h]
  norm_num

/-- Witness for `command_executeAndWait_busy_falls_through`: a command with
an execute already in flight is rejected with `-ECANCELED`, and
`executeAndWait` then returns the result of `wait()`. -/
theorem command_executeAndWait_busy_falls_through_witness :
    Command.executeAndWait sampleBusy (ForkResult.success 42) worldEmpty
      = Command.wait
          (Command.execute sampleBusy (ForkResult.success 42)).2 worldEmpty :=
  command_executeAndWait_busy_falls_through sampleBusy (ForkResult.success 42)
    worldEmpty (by decide)

/-- Claim C10: `Command::_clear` (run by both `clear()` and the destructor)
first performs `terminate(true)` — delivering SIGTERM to the owned live
child and reaping it via `waitpid` — before releasing resources; afterwards
no child pid is owned (by either the `_clear` result or the `clear` result)
and the child is gone from the process table (no zombie), and `clear`
changes the world exactly as `_clear` does. -/
theorem command_clear_terminates_and_reaps (s : CommandState) (w : World)
    (k : Nat) (hpid : 0 < s.childProcessID)
    (hproc : w.procs s.childProcessID = some k) :
    (Command._clear s w).1.childProcessID = -1
    ∧ (Command.clear s w).1.childProcessID = -1
    ∧ (Command._clear s w).2.procs s.childProcessID = none
    ∧ (Command._clear s w).2.sigterms = w.sigterms ++ [s.childProcessID]
    ∧ (Command._clear s w).2.reaps = w.reaps ++ [s.childProcessID]
    ∧ (Command.clear s w).2 = (Command._clear s w).2 := by
  refine ⟨rfl, rfl, ?_, ?_, ?_, rfl⟩ <;>
    simp [Command._clear, Command.terminate, Command.wait, osKill, osReap,
      hpid, hproc, Command.initState]

/-- Witness for `command_clear_terminates_and_reaps`: clearing a command
owning live child 5 (exit status 7) drops the pid, removes the child from
the process table and logs one SIGTERM and one reap of pid 5. -/
theorem command_clear_terminates_and_reaps_witness :
    (Command._clear sampleLive worldChild5).1.childProcessID = -1
    ∧ (Command.clear sampleLive worldChild5).1.childProcessID = -1
    ∧ (Command._clear sampleLive worldChild5).2.procs
        sampleLive.childProcessID = none
    ∧ (Command._clear sampleLive worldChild5).2.sigterms
        = worldChild5.sigterms ++ [sampleLive.childProcessID]
    ∧ (Command._clear sampleLive worldChild5).2.reaps
        = worldChild5.reaps ++ [sampleLive.childProcessID]
    ∧ (Command.clear sampleLive worldChild5).2
        = (Command._clear sampleLive worldChild5).2 :=
  command_clear_terminates_and_reaps sampleLive worldChild5 7
    (by decide) rfl

/-- The validation scan finds no offender exactly when every command in the
list has a non-empty application name. -/
theorem firstEmptyIdx_eq_none_iff (cs : List CommandState) :
    CommandPipeline.firstEmptyIdx cs = none
      ↔ ∀ c ∈ cs, Command.applicationName c ≠ "" := by
  induction cs with
  | nil => simp [CommandPipeline.firstEmptyIdx]
  | cons c rest ih =>
    by_cases h : Command.applicationName c = "" <;>
      simp [CommandPipeline.firstEmptyIdx, h, Option.map_eq_none', ih]

/-- Claim C8: appending a command with an empty application name to a
pipeline — through the vector constructor, `appendCommand` or
`appendCommands` — fails immediately with `std::invalid_argument`
(`Except.error`) and nothing is added (the error is produced instead of a
new pipeline value), all without `execute` being involved; appending
commands whose application names are non-empty succeeds and appends them
in order. -/
theorem commandPipeline_append_validation (p : PipelineState)
    (c : CommandState) (cs : List CommandState) :
    (Command.applicationName c = "" →
      (∃ msg, CommandPipeline.appendCommand p c = Except.error msg))
    ∧ (Command.applicationName c ≠ "" →
      CommandPipeline.appendCommand p c
        = Except.ok { p with mCommands := p.mCommands ++ [c] })
    ∧ ((∃ c' ∈ cs, Command.applicationName c' = "") →
      (∃ msg, CommandPipeline.ofCommands cs = Except.error msg)
      ∧ (∃ msg, CommandPipeline.appendCommands p cs = Except.error msg))
    ∧ ((∀ c' ∈ cs, Command.applicationName c' ≠ "") →
      CommandPipeline.ofCommands cs
        = Except.ok { mCommands := cs, mHasExecuted := false, mExitStatus := 0 }
      ∧ CommandPipeline.appendCommands p cs
        = Except.ok { p with mCommands := p.mCommands ++ cs }) := by
  refine ⟨?_, ?_, ?_, ?_⟩
  · intro h
    exact ⟨"Command does not have a set application",
      by simp [CommandPipeline.appendCommand, h]⟩
  · intro h
    simp [CommandPipeline.appendCommand, h]
  · intro h
    have hne : CommandPipeline.firstEmptyIdx cs ≠ none := by
      rw [Ne, firstEmptyIdx_eq_none_iff]
      push_neg
      obtain ⟨c', hc', hname⟩ := h
      exact ⟨c', hc', hname⟩
    cases heq : CommandPipeline.firstEmptyIdx cs with
    | none => exact absurd heq hne
    | some i =>
      exact ⟨⟨"Command at index " ++ toString i
          ++ " does not have a set application",
          by simp [CommandPipeline.ofCommands, heq]⟩,
        ⟨"Command at index " ++ toString i
          ++ " does not have a set application",
          by simp [CommandPipeline.appendCommands, heq]⟩⟩
  · intro h
    have hnone : CommandPipeline.firstEmptyIdx cs = none :=
      (firstEmptyIdx_eq_none_iff cs).mpr h
    exact ⟨by simp [CommandPipeline.ofCommands, hnone],
           by simp [CommandPipeline.appendCommands, hnone]⟩

/-- Witness for `commandPipeline_append_validation`: appending the empty
default command fails, a list containing it fails construction, and
appending `/bin/cat` to the empty pipeline succeeds. -/
theorem commandPipeline_append_validation_witness :
    (∃ msg, CommandPipeline.appendCommand
        { mCommands := [], mHasExecuted := false, mExitStatus := 0 }
        Command.initState = Except.error msg)
    ∧ (∃ msg, CommandPipeline.ofCommands [sampleIdle, Command.initState]
        = Except.error msg)
    ∧ CommandPipeline.appendCommand
        { mCommands := [], mHasExecuted := false, mExitStatus := 0 } sampleIdle
      = Except.ok { mCommands := [sampleIdle], mHasExecuted := false,
                    mExitStatus := 0 } :=
  ⟨(commandPipeline_append_validation
      { mCommands := [], mHasExecuted := false, mExitStatus := 0 }
      Command.initState [sampleIdle, Command.initState]).1 rfl,
   ((commandPipeline_append_validation
      { mCommands := [], mHasExecuted := false, mExitStatus := 0 }
      Command.initState [sampleIdle, Command.initState]).2.2.1
      ⟨Command.initState,
        List.mem_cons_of_mem _ (List.mem_cons_self _ _), rfl⟩).1,
   (commandPipeline_append_validation
      { mCommands := [], mHasExecuted := false, mExitStatus := 0 }
      sampleIdle []).2.1 (by decide)⟩

/-- Helper for the broken-chain pattern: some exited stage is followed
(later in the list) by a running stage. -/
def hasFallThenRise : List Bool → Bool
  | [] => false
  | st :: rest => if st then hasFallThenRise rest else rest.any id

/-- The running/exited/running pattern: some running stage is followed by an
exited stage that is in turn followed by another running stage. -/
def hasRunExitRun : List Bool → Bool
  | [] => false
  | st :: rest => if st then hasFallThenRise rest else hasRunExitRun rest

/-- Position-level description of the broken pattern: stages `i < j < k`
with `i` and `k` running while `j` has exited — i.e. the running stages do
not form one contiguous block. -/
def BrokenMidChain (l : List Bool) : Prop :=
  ∃ i j k, i < j ∧ j < k ∧ k < l.length
    ∧ l.getD i false = true ∧ l.getD j true = false ∧ l.getD k false = true

/-- Scan state (running := true, fallingEdge := true): any further running
stage returns -1, otherwise the scan ends reporting 1. -/
theorem isRunningScan_true_true (m : List Bool) :
    CommandPipeline.isRunningScan m true true
      = if m.any id then -1 else 1 := by
  induction m with
  | nil => simp [CommandPipeline.isRunningScan]
  | cons st rest ih => cases st <;> simp [CommandPipeline.isRunningScan, ih]

/-- Scan state (running := true, fallingEdge := false): the scan returns -1
exactly when an exited stage is later followed by a running one. -/
theorem isRunningScan_true_false (m : List Bool) :
    CommandPipeline.isRunningScan m true false
      = if hasFallThenRise m then -1 else 1 := by
  induction m with
  | nil => simp [CommandPipeline.isRunningScan, hasFallThenRise]
  | cons st rest ih =>
    cases st
    · simp [CommandPipeline.isRunningScan, hasFallThenRise,
        isRunningScan_true_true rest]
    · simpa [CommandPipeline.isRunningScan, hasFallThenRise] using ih

/-- The full scan from its initial state: 0 when nothing runs, otherwise -1
exactly on the running/exited/running pattern and 1 otherwise. -/
theorem isRunningScan_false_false (m : List Bool) :
    CommandPipeline.isRunningScan m false false
      = if m.any id then (if hasRunExitRun m then -1 else 1) else 0 := by
  induction m with
  | nil => simp [CommandPipeline.isRunningScan]
  | cons st rest ih =>
    cases st
    · simpa [CommandPipeline.isRunningScan, hasRunExitRun] using ih
    · simp [CommandPipeline.isRunningScan, hasRunExitRun,
        isRunningScan_true_false rest]

/-- A list of booleans contains `true` exactly when some in-range position
holds `true`. -/
theorem any_id_iff_exists_getD (m : List Bool) :
    m.any id = true ↔ ∃ k, k < m.length ∧ m.getD k false = true := by
  rw [List.any_eq_true]
  constructor
  · rintro ⟨x, hx, hid⟩
    have hxt : x = true := by simpa using hid
    subst hxt
    obtain ⟨i, hi, hgi⟩ := List.mem_iff_getElem.mp hx
    exact ⟨i, hi, by rw [List.getD_eq_getElem m false hi, hgi]⟩
  · rintro ⟨k, hk, hgd⟩
    refine ⟨true, ?_, rfl⟩
    rw [List.getD_eq_getElem m false hk] at hgd
    exact hgd ▸ List.getElem_mem hk

/-- Position-level reading of `hasFallThenRise`. -/
theorem hasFallThenRise_iff (m : List Bool) :
    hasFallThenRise m = true
      ↔ ∃ j k, j < k ∧ k < m.length
          ∧ m.getD j true = false ∧ m.getD k false = true := by
  induction m with
  | nil => simp [hasFallThenRise]
  | cons st rest ih =>
    cases st
    · rw [show hasFallThenRise (false :: rest) = rest.any id from rfl,
        any_id_iff_exists_getD]
      constructor
      · rintro ⟨k, hk, hgd⟩
        exact ⟨0, k + 1, by omega, by simpa using hk, by simp,
          by simpa using hgd⟩
      · rintro ⟨j, k, hjk, hk, _, hkv⟩
        cases k with
        | zero => omega
        | succ k' => exact ⟨k', by simpa using hk, by simpa using hkv⟩
    · rw [show hasFallThenRise (true :: rest) = hasFallThenRise rest from rfl,
        ih]
      constructor
      · rintro ⟨j, k, hjk, hk, hj, hkv⟩
        exact ⟨j + 1, k + 1, by omega, by simpa using hk, by simpa using hj,
          by simpa using hkv⟩
      · rintro ⟨j, k, hjk, hk, hj, hkv⟩
        cases j with
        | zero => simp at hj
        | succ j' =>
          cases k with
          | zero => omega
          | succ k' =>
            exact ⟨j', k', by omega, by simpa using hk, by simpa using hj,
              by simpa using hkv⟩

/-- Position-level reading of `hasRunExitRun`: it holds exactly on the
`BrokenMidChain` pattern. -/
theorem hasRunExitRun_iff (m : List Bool) :
    hasRunExitRun m = true ↔ BrokenMidChain m := by
  induction m with
  | nil => simp [hasRunExitRun, BrokenMidChain]
  | cons st rest ih =>
    cases st
    · rw [show hasRunExitRun (false :: rest) = hasRunExitRun rest from rfl,
        ih]
      constructor
      · rintro ⟨i, j, k, h1, h2, h3, hi, hj, hk⟩
        exact ⟨i + 1, j + 1, k + 1, by omega, by omega, by simpa using h3,
          by simpa using hi, by simpa using hj, by simpa using hk⟩
      · rintro ⟨i, j, k, h1, h2, h3, hi, hj, hk⟩
        cases i with
        | zero => simp at hi
        | succ i' =>
          cases j with
          | zero => omega
          | succ j' =>
            cases k with
            | zero => omega
            | succ k' =>
              exact ⟨i', j', k', by omega, by omega, by simpa using h3,
                by simpa using hi, by simpa using hj, by simpa using hk⟩
    · rw [show hasRunExitRun (true :: rest) = hasFallThenRise rest from rfl,
        hasFallThenRise_iff]
      constructor
      · rintro ⟨j, k, hjk, hk, hj, hkv⟩
        exact ⟨0, j + 1, k + 1, by omega, by omega, by simpa using hk,
          by simp, by simpa using hj, by simpa using hkv⟩
      · rintro ⟨i, j, k, h1, h2, h3, hi, hj, hk⟩
        cases j with
        | zero => omega
        | succ j' =>
          cases k with
          | zero => omega
          | succ k' =>
            exact ⟨j', k', by omega, by simpa using h3, by simpa using hj,
              by simpa using hk⟩

/-- Reading an in-range position of a reversed list. -/
theorem getD_reverse_of_lt (l : List Bool) (i : Nat) (h : i < l.length)
    (d : Bool) : l.reverse.getD i d = l.getD (l.length - 1 - i) d := by
  have h1 : i < l.reverse.length := by simpa using h
  have h2 : l.length - 1 - i < l.length := by omega
  rw [List.getD_eq_getElem l.reverse d h1, List.getD_eq_getElem l d h2]
  exact List.getElem_reverse ..

/-- The broken pattern survives reversal (one direction). -/
theorem brokenMidChain_reverse_imp (l : List Bool) :
    BrokenMidChain l.reverse → BrokenMidChain l := by
  rintro ⟨i, j, k, h1, h2, h3, hi, hj, hk⟩
  have hlen : l.reverse.length = l.length := List.length_reverse l
  rw [hlen] at h3
  rw [getD_reverse_of_lt l i (by omega) false] at hi
  rw [getD_reverse_of_lt l j (by omega) true] at hj
  rw [getD_reverse_of_lt l k (by omega) false] at hk
  exact ⟨l.length - 1 - k, l.length - 1 - j, l.length - 1 - i,
    by omega, by omega, by omega, hk, hj, hi⟩

/-- The broken pattern is invariant under reversal. -/
theorem brokenMidChain_reverse (l : List Bool) :
    BrokenMidChain l.reverse ↔ BrokenMidChain l :=
  ⟨brokenMidChain_reverse_imp l,
   fun h => brokenMidChain_reverse_imp l.reverse
     (by rwa [List.reverse_reverse])⟩

/-- Claim C4 (amended): for an executed pipeline, with `statuses` listing
each stage's `isRunning()` result in head-to-tail order, `isRunning`
returns 0 exactly when no stage is running, returns -1 exactly when two
running stages are separated by an exited stage (the running stages are
non-contiguous), and returns 1 exactly when some stage is running and the
running stages form one contiguous block — regardless of whether that
block is a suffix.  In particular, a later consumer that exited while an
earlier producer still runs yields 1, not -1. -/
theorem commandPipeline_isRunning_classification (p : PipelineState)
    (statuses : List Bool) (hexec : p.mHasExecuted = true) :
    (CommandPipeline.isRunning p statuses = 0 ↔ statuses.any id = false)
    ∧ (CommandPipeline.isRunning p statuses = -1
        ↔ (statuses.any id = true ∧ BrokenMidChain statuses))
    ∧ (CommandPipeline.isRunning p statuses = 1
        ↔ (statuses.any id = true ∧ ¬ BrokenMidChain statuses)) := by
  have hb : hasRunExitRun statuses.reverse = true ↔ BrokenMidChain statuses := by
    rw [hasRunExitRun_iff, brokenMidChain_reverse]
  have key : CommandPipeline.isRunning p statuses
      = if statuses.any id
        then (if hasRunExitRun statuses.reverse then -1 else 1) else 0 := by
    rw [CommandPipeline.isRunning, if_pos hexec, isRunningScan_false_false,
      List.any_reverse]
  cases hany : statuses.any id
  · have hnb : ¬ BrokenMidChain statuses := by
      intro hc
      have := hb.mpr hc
      obtain ⟨i, j, k, _, _, h3, _, _, hk⟩ := hasRunExitRun_iff _ |>.mp this
      have : statuses.reverse.any id = true :=
        (any_id_iff_exists_getD _).mpr ⟨k, h3, hk⟩
      rw [List.any_reverse] at this
      rw [hany] at this
      exact Bool.false_ne_true this
    rw [key, hany]
    norm_num [hnb]
  · cases hbr : hasRunExitRun statuses.reverse
    · have hnb : ¬ BrokenMidChain statuses := fun hc => by
        rw [hb.mpr hc] at hbr
        exact Bool.noConfusion hbr
      rw [key, hany, hbr]
      norm_num [hnb]
    · have hbc : BrokenMidChain statuses := hb.mp hbr
      rw [key, hany, hbr]
      norm_num [hbc]

/-- Classification of the pipeline's running state exactly as claim C4
words it.  Modelled from the claim: return 1 when a non-empty suffix of
stages is running with every stage before that suffix exited, -1 when some
stage is running but the running stages do not form such a suffix, and 0
when nothing runs.  (The running stages form a running suffix exactly when,
after dropping the leading exited stages, everything that remains is
running.) -/
def claimC4SuffixClassification (l : List Bool) : Int :=
  if l.any id then
    (if (l.dropWhile (fun st => !st)).all id then 1 else -1)
  else 0

/-- The two-stage pipeline after `execute()`. -/
def samplePipelineExecuted : PipelineState :=
  { samplePipelineTwo with mHasExecuted := true }

/-- Claim C4 (counterexample to the claim as stated): with stage 0 (the
producer) still running and stage 1 (the consumer) already exited, the
running stages do not form a suffix, so the claim requires -1
(BrokenMidChain); the code's scan instead returns 1. -/
theorem commandPipeline_isRunning_counterexample :
    CommandPipeline.isRunning samplePipelineExecuted [true, false] = 1
    ∧ claimC4SuffixClassification [true, false] = -1 :=
  ⟨rfl, rfl⟩

/-- Witness for `commandPipeline_isRunning_classification` at the concrete
statuses `[true, false]` of the executed two-stage pipeline. -/
theorem commandPipeline_isRunning_classification_witness :
    (CommandPipeline.isRunning samplePipelineExecuted [true, false] = 0
      ↔ ([true, false].any id) = false)
    ∧ (CommandPipeline.isRunning samplePipelineExecuted [true, false] = -1
      ↔ (([true, false].any id) = true ∧ BrokenMidChain [true, false]))
    ∧ (CommandPipeline.isRunning samplePipelineExecuted [true, false] = 1
      ↔ (([true, false].any id) = true ∧ ¬ BrokenMidChain [true, false])) :=
  commandPipeline_isRunning_classification samplePipelineExecuted
    [true, false] rfl

/-- Number of stages whose `wait` is actually collected for a given list of
per-stage exit statuses: the leading zeros plus, if a non-zero status is
reached, that stage itself; stages after it are cut off. -/
def collectedCount : List Nat → Nat
  | [] => 0
  | c :: rest => if c = 0 then collectedCount rest + 1 else 1

/-- Exit code of the last stage whose `wait` is collected, with `dflt` the
value reported when no stage is waited on at all (the loop's incoming
`waitCode`, respectively the member `mExitStatus`). -/
def lastCollected (dflt : Int) : List Nat → Int
  | [] => dflt
  | c :: rest => if c = 0 then lastCollected 0 rest else (c : Int)

/-- Transport of the per-stage wait hypotheses to a world whose process
table agrees on every pid occurring in the list. -/
theorem forall₂_procs_agree {w w' : World} :
    ∀ {rest : List CommandState} {ks : List Nat},
    List.Forall₂ (fun c k => 0 < c.childProcessID
      ∧ w.procs c.childProcessID = some k) rest ks →
    (∀ c ∈ rest, w'.procs c.childProcessID = w.procs c.childProcessID) →
    List.Forall₂ (fun c k => 0 < c.childProcessID
      ∧ w'.procs c.childProcessID = some k) rest ks := by
  intro rest ks h
  induction h with
  | nil => intro _; exact List.Forall₂.nil
  | cons hab htail ih =>
    intro hagree
    refine List.Forall₂.cons ⟨hab.1, ?_⟩
      (ih fun c hc => hagree c (List.mem_cons_of_mem _ hc))
    rw [hagree _ (List.mem_cons_self _ _)]
    exact hab.2

/-- Every left element of a `Forall₂` pair has a related right element. -/
theorem forall₂_mem_left {P : CommandState → Nat → Prop} :
    ∀ {rest : List CommandState} {ks : List Nat},
    List.Forall₂ P rest ks → ∀ c ∈ rest, ∃ k, P c k := by
  intro rest ks h
  induction h with
  | nil => intro c hc; exact absurd hc (List.not_mem_nil c)
  | cons hab htail ih =>
    intro c hc
    rcases List.mem_cons.mp hc with rfl | hc'
    · exact ⟨_, hab⟩
    · exact ih c hc'

/-- Once the wait loop has switched to terminate mode, every remaining
stage (each owning a live child) is signalled in order, its state left
untouched, and neither `waitCode` nor `mExitStatus` changes. -/
theorem waitGo_terminate_all (cs : List CommandState) :
    ∀ (w : World) (wc es : Int),
    (∀ c ∈ cs, 0 < c.childProcessID ∧ (w.procs c.childProcessID).isSome) →
    CommandPipeline.waitGo cs w wc es true
      = (cs, { w with sigterms :=
            (w.sigterms ++ cs.map (fun c => c.childProcessID)) }, wc, es) := by
  induction cs with
  | nil => intro w wc es _; simp [CommandPipeline.waitGo]
  | cons c rest ih =>
    intro w wc es h
    obtain ⟨hpid, hsome⟩ := h c (List.mem_cons_self c rest)
    obtain ⟨v, hv⟩ := Option.isSome_iff_exists.mp hsome
    have hterm : Command.terminate c w false
        = (0, c, { w with sigterms := w.sigterms ++ [c.childProcessID] }) := by
      simp [Command.terminate, osKill, hpid, hv]
    have hrest : ∀ c' ∈ rest, 0 < c'.childProcessID
        ∧ ((({ w with sigterms := w.sigterms ++ [c.childProcessID] }
            : World).procs c'.childProcessID).isSome) :=
      fun c' hc' => h c' (List.mem_cons_of_mem _ hc')
    simp only [CommandPipeline.waitGo, if_pos trivial, hterm,
      ih _ wc es hrest]
    simp [List.append_assoc]


/-- Characterization of the wait loop in wait mode: with each stage owning
a distinct live child whose eventual exit status is listed in `codes`, the
loop returns `lastCollected`, records it in `mExitStatus`, reaps exactly
the stages up to and including the first non-zero status (in head-to-tail
order) and signals exactly the stages after it. -/
theorem waitGo_wait_mode (cs : List CommandState) :
    ∀ (codes : List Nat) (w : World) (wc es : Int),
    List.Forall₂ (fun c k => 0 < c.childProcessID
      ∧ w.procs c.childProcessID = some k) cs codes →
    (cs.map (fun c => c.childProcessID)).Nodup →
    (CommandPipeline.waitGo cs w wc es false).2.2.1 = lastCollected wc codes
    ∧ (CommandPipeline.waitGo cs w wc es false).2.2.2
        = lastCollected es codes
    ∧ (CommandPipeline.waitGo cs w wc es false).2.1.reaps
        = w.reaps ++ ((cs.take (collectedCount codes)).map
            (fun c => c.childProcessID))
    ∧ (CommandPipeline.waitGo cs w wc es false).2.1.sigterms
        = w.sigterms ++ ((cs.drop (collectedCount codes)).map
            (fun c => c.childProcessID)) := by
  induction cs with
  | nil =>
    intro codes w wc es hmatch _
    cases hmatch
    simp [CommandPipeline.waitGo, collectedCount, lastCollected]
  | cons c rest ih =>
    intro codes w wc es hmatch hnodup
    obtain ⟨k, ks, hck, hrest, rfl⟩ :
        ∃ k ks, (0 < c.childProcessID ∧ w.procs c.childProcessID = some k)
          ∧ List.Forall₂ (fun c' k' => 0 < c'.childProcessID
              ∧ w.procs c'.childProcessID = some k') rest ks
          ∧ codes = k :: ks := by
      cases hmatch with
      | cons hab htail => exact ⟨_, _, hab, htail, rfl⟩
    have hnotin : c.childProcessID
        ∉ rest.map (fun c' => c'.childProcessID) := by
      have h := hnodup
      simp only [List.map_cons, List.nodup_cons] at h
      exact h.1
    have hnodup' : (rest.map (fun c' => c'.childProcessID)).Nodup := by
      have h := hnodup
      simp only [List.map_cons, List.nodup_cons] at h
      exact h.2
    have hwait : Command.wait c w
        = ((k : Int),
           { c with mExitStatus := (k : Int), childProcessID := -1 },
           { w with
              procs := fun q =>
                if q = c.childProcessID then none else w.procs q,
              reaps := w.reaps ++ [c.childProcessID] }) := by
      simp [Command.wait, osReap, hck.1, hck.2]
    have hagree : ∀ c' ∈ rest,
        (({ w with
             procs := fun q =>
               if q = c.childProcessID then none else w.procs q,
             reaps := w.reaps ++ [c.childProcessID] } : World).procs
            c'.childProcessID)
          = w.procs c'.childProcessID := by
      intro c' hc'
      have hne : c'.childProcessID ≠ c.childProcessID := by
        intro he
        exact hnotin
          (he ▸ List.mem_map_of_mem (fun x => x.childProcessID) hc')
      simp [hne]
    have hrest' := forall₂_procs_agree hrest hagree
    have hgo : CommandPipeline.waitGo (c :: rest) w wc es false
        = ({ c with mExitStatus := (k : Int), childProcessID := -1 }
            :: (CommandPipeline.waitGo rest
                 { w with
                    procs := fun q =>
                      if q = c.childProcessID then none else w.procs q,
                    reaps := w.reaps ++ [c.childProcessID] }
                 (k : Int) (k : Int) (decide ((k : Int) ≠ 0))).1,
           (CommandPipeline.waitGo rest
                 { w with
                    procs := fun q =>
                      if q = c.childProcessID then none else w.procs q,
                    reaps := w.reaps ++ [c.childProcessID] }
                 (k : Int) (k : Int) (decide ((k : Int) ≠ 0))).2) := by
      conv_lhs => rw [CommandPipeline.waitGo]
      rw [if_neg (by simp)]
      rw [hwait]
    by_cases hk : k = 0
    · subst hk
      have hflag : (decide (((0 : Nat) : Int) ≠ 0)) = false := by decide
      rw [hflag] at hgo
      simp only [Nat.cast_zero] at hgo
      have h := ih ks _ 0 0 hrest' hnodup'
      refine ⟨?_, ?_, ?_, ?_⟩
      · rw [hgo]
        exact h.1
      · rw [hgo]
        exact h.2.1
      · rw [hgo]
        simpa [collectedCount, List.append_assoc] using h.2.2.1
      · rw [hgo]
        simpa [collectedCount] using h.2.2.2
    · have hflag : (decide (((k : Nat) : Int) ≠ 0)) = true := by
        simp [hk]
      rw [hflag] at hgo
      have hlive : ∀ c' ∈ rest, 0 < c'.childProcessID
          ∧ ((({ w with
                procs := fun q =>
                  if q = c.childProcessID then none else w.procs q,
                reaps := w.reaps ++ [c.childProcessID] } : World).procs
              c'.childProcessID).isSome) := by
        intro c' hc'
        obtain ⟨k', hk'⟩ := forall₂_mem_left hrest' c' hc'
        exact ⟨hk'.1, by rw [hk'.2]; rfl⟩
      have hterm := waitGo_terminate_all rest _ (k : Int) (k : Int) hlive
      rw [hterm] at hgo
      have hcc : collectedCount (k :: ks) = 1 := by
        simp [collectedCount, hk]
      have hlc : ∀ d : Int, lastCollected d (k :: ks) = (k : Int) := by
        intro d
        simp [lastCollected, hk]
      refine ⟨?_, ?_, ?_, ?_⟩
      · rw [hgo, hlc]
      · rw [hgo, hlc]
      · rw [hgo, hcc]
        simp
      · rw [hgo, hcc]
        simp

/-- Claim C5: for an executed pipeline whose stages each own a distinct
live child with eventual exit statuses `codes`, `CommandPipeline::wait`
waits on the stages strictly in head-to-tail order (the reap log grows by
exactly the stage pids up to and including the first non-zero status, in
stage order), terminates every remaining not-yet-waited stage instead of
waiting on it (the SIGTERM log grows by exactly the pids of the cut-off
suffix), and both the returned value and the recorded aggregate
`mExitStatus` equal the exit code of the last stage whose wait was
actually collected. -/
theorem commandPipeline_wait_ordering (p : PipelineState) (codes : List Nat)
    (w : World) (hexec : p.mHasExecuted = true)
    (hmatch : List.Forall₂ (fun c k => 0 < c.childProcessID
      ∧ w.procs c.childProcessID = some k) p.mCommands codes)
    (hnodup : (p.mCommands.map (fun c => c.childProcessID)).Nodup) :
    (CommandPipeline.wait p w).1 = lastCollected 0 codes
    ∧ (CommandPipeline.wait p w).2.1.mExitStatus
        = lastCollected p.mExitStatus codes
    ∧ (CommandPipeline.wait p w).2.2.reaps
        = w.reaps ++ ((p.mCommands.take (collectedCount codes)).map
            (fun c => c.childProcessID))
    ∧ (CommandPipeline.wait p w).2.2.sigterms
        = w.sigterms ++ ((p.mCommands.drop (collectedCount codes)).map
            (fun c => c.childProcessID)) := by
  have h := waitGo_wait_mode p.mCommands codes w 0 p.mExitStatus hmatch hnodup
  have hw : CommandPipeline.wait p w
      = ((CommandPipeline.waitGo p.mCommands w 0 p.mExitStatus false).2.2.1,
         { p with
            mCommands :=
              (CommandPipeline.waitGo p.mCommands w 0 p.mExitStatus false).1,
            mExitStatus :=
              (CommandPipeline.waitGo p.mCommands w 0 p.mExitStatus
                false).2.2.2 },
         (CommandPipeline.waitGo p.mCommands w 0 p.mExitStatus false).2.1) := by
    rw [CommandPipeline.wait, if_pos hexec]
  rw [hw]
  exact ⟨h.1, h.2.1, h.2.2.1, h.2.2.2⟩

/-- A stage of the executed three-stage sample pipeline, owning the live
child with the given pid. -/
def sampleStage (pid : Int) : CommandState :=
  { sampleIdle with childProcessID := pid }

/-- A three-stage pipeline after `execute()`, its stages owning children
11, 12 and 13. -/
def samplePipelineThree : PipelineState :=
  { mCommands := [sampleStage 11, sampleStage 12, sampleStage 13],
    mHasExecuted := true, mExitStatus := 0 }

/-- A world where children 11, 12 and 13 will report exit statuses 0, 3
and 9 respectively. -/
def worldThreeChildren : World :=
  { procs := fun q =>
      if q = 11 then some 0
      else if q = 12 then some 3
      else if q = 13 then some 9
      else none,
    sigterms := [], reaps := [] }

/-- Witness for `commandPipeline_wait_ordering`: stage exit statuses
`[0, 3, 9]` make the pipeline wait on stages 0 and 1 (reaping pids 11 and
12, in that order), terminate stage 2 (SIGTERM to pid 13) without waiting
on it, and report 3 — stage 1's status, the last wait collected. -/
theorem commandPipeline_wait_ordering_witness :
    (CommandPipeline.wait samplePipelineThree worldThreeChildren).1 = 3
    ∧ (CommandPipeline.wait samplePipelineThree
        worldThreeChildren).2.1.mExitStatus = 3
    ∧ (CommandPipeline.wait samplePipelineThree
        worldThreeChildren).2.2.reaps = [11, 12]
    ∧ (CommandPipeline.wait samplePipelineThree
        worldThreeChildren).2.2.sigterms = [13] := by
  have h := commandPipeline_wait_ordering samplePipelineThree [0, 3, 9]
    worldThreeChildren rfl
    (List.Forall₂.cons ⟨by decide, rfl⟩
      (List.Forall₂.cons ⟨by decide, rfl⟩
        (List.Forall₂.cons ⟨by decide, rfl⟩ List.Forall₂.nil)))
    (by decide)
  exact ⟨h.1, h.2.1, h.2.2.1, h.2.2.2⟩
